import Mathlib

/-!
# Verification of the signup-sequencer identity/root lifecycle store

Shallow embedding of `src/database/mod.rs`. Each database table is a list
of rows in insertion order; `CURRENT_TIMESTAMP` is an explicit `now : Nat`
argument; the field-element `Hash` type is modelled as `Nat`. SQL `UPDATE`
statements become `List.map` of a per-row transformer, point lookups become
`List.find?`, and each fallible operation returns `Except DbError`.
-/

namespace SignupSequencer

/-- Modelled from the spec: the status enum of `crate::identity_tree::Status`
(whose source file is outside the database module); values per the spec are
`New`, `Failed` (intake ledger) and `Pending`, `Processed`, `Mined`
(identities table). -/
inductive Status where
  | New
  | Failed
  | Pending
  | Processed
  | Mined
deriving DecidableEq, Repr

/-- A row of the `identities` table:
`(leaf_index PK, commitment, root UNIQUE, status, pending_as_of, mined_at NULL)`. -/
structure IdentityRow where
  leaf_index : Nat
  commitment : Nat
  root : Nat
  status : Status
  pending_as_of : Nat
  mined_at : Option Nat
deriving DecidableEq, Repr

/-- The error enum of `database::Error`: `InternalError(sqlx::Error)`
(here: a unique-constraint violation surfaced by a plain INSERT) and
`MissingRoot { root }`. -/
inductive DbError where
  | InternalError
  | MissingRoot (root : Nat)
deriving DecidableEq, Repr

/-- Embedding of `get_leaf_index_by_root`: `SELECT leaf_index FROM identities WHERE root = $1`
(fetch_optional; `root` is UNIQUE so the first match is the only one). -/
def get_leaf_index_by_root (tbl : List IdentityRow) (root : Nat) : Option Nat :=
  (tbl.find? (fun r => r.root == root)).map (fun r => r.leaf_index)

/-- Embedding of `insert_pending_identity`: INSERT with status Pending,
`pending_as_of = CURRENT_TIMESTAMP`, `ON CONFLICT (root) DO NOTHING`. -/
def insert_pending_identity (tbl : List IdentityRow) (now leaf_index commitment root : Nat) :
    List IdentityRow :=
  if tbl.any (fun r => r.root == root) then tbl
  else tbl ++ [{ leaf_index := leaf_index, commitment := commitment, root := root,
                 status := Status.Pending, pending_as_of := now, mined_at := none }]

/-- First UPDATE of `mark_root_as_processed`: rows with `leaf_index <= $1`
whose status is neither Processed nor Mined get
`status = Processed, mined_at = CURRENT_TIMESTAMP`. -/
def processedUpdate (target now : Nat) (r : IdentityRow) : IdentityRow :=
  if r.leaf_index ≤ target ∧ r.status ≠ Status.Processed ∧ r.status ≠ Status.Mined then
    { r with status := Status.Processed, mined_at := some now }
  else r

/-- Second UPDATE of `mark_root_as_processed`: every row with
`leaf_index > $1` gets `status = Pending, mined_at = NULL` (no status filter). -/
def pendingReset (target : Nat) (r : IdentityRow) : IdentityRow :=
  if target < r.leaf_index then
    { r with status := Status.Pending, mined_at := none }
  else r

/-- Embedding of `mark_root_as_processed`: resolve the root's leaf index (else
`MissingRoot`), then run both UPDATEs in one transaction. -/
def mark_root_as_processed (tbl : List IdentityRow) (now root : Nat) :
    Except DbError (List IdentityRow) :=
  match get_leaf_index_by_root tbl root with
  | none => Except.error (DbError.MissingRoot root)
  | some target =>
      Except.ok ((tbl.map (processedUpdate target now)).map (pendingReset target))

/-- The UPDATE of `mark_root_as_mined`: rows with `leaf_index <= $1` and
status ≠ Mined get `status = Mined` (nothing else changes; `mined_at`
is not touched). -/
def minedUpdate (target : Nat) (r : IdentityRow) : IdentityRow :=
  if r.leaf_index ≤ target ∧ r.status ≠ Status.Mined then
    { r with status := Status.Mined }
  else r

/-- Embedding of `mark_root_as_mined`: resolve the root's leaf index (else `MissingRoot`),
then run the single UPDATE. -/
def mark_root_as_mined (tbl : List IdentityRow) (root : Nat) :
    Except DbError (List IdentityRow) :=
  match get_leaf_index_by_root tbl root with
  | none => Except.error (DbError.MissingRoot root)
  | some target => Except.ok (tbl.map (minedUpdate target))

/-! ## Operation traces over the identities table -/

/-- One call against the identities table. -/
inductive Op where
  | insert (now leaf_index commitment root : Nat)
  | markProcessed (now root : Nat)
  | markMined (root : Nat)
deriving DecidableEq, Repr

/-- Apply one call; a failed call (MissingRoot) rolls back, leaving the
table unchanged. -/
def applyOp (tbl : List IdentityRow) : Op → List IdentityRow
  | Op.insert now i c r => insert_pending_identity tbl now i c r
  | Op.markProcessed now r =>
      match mark_root_as_processed tbl now r with
      | Except.ok t => t
      | Except.error _ => tbl
  | Op.markMined r =>
      match mark_root_as_mined tbl r with
      | Except.ok t => t
      | Except.error _ => tbl

/-- Run a sequence of calls from a starting table. -/
def runFrom (tbl : List IdentityRow) (ops : List Op) : List IdentityRow :=
  ops.foldl applyOp tbl

/-- Run a sequence of calls from the empty store. -/
def run (ops : List Op) : List IdentityRow := runFrom [] ops

/-- An insert is at a strictly increasing leaf index: larger than every
leaf index already in the table. Mark calls are unconstrained. -/
def freshInsert (tbl : List IdentityRow) : Op → Bool
  | Op.insert _ i _ _ => tbl.all (fun r => r.leaf_index < i)
  | _ => true

/-- Every insert in the sequence is at a strictly increasing leaf index
relative to the table state at which it executes. -/
def validSeq (tbl : List IdentityRow) : List Op → Bool
  | [] => true
  | op :: rest => freshInsert tbl op && validSeq (applyOp tbl op) rest

/-- Finality rank: Mined > Processed > Pending (intake statuses rank 0). -/
def rank : Status → Nat
  | Status.Mined => 2
  | Status.Processed => 1
  | _ => 0

/-- The prefix invariant: no row has a strictly stronger status than a row
with a smaller leaf index. -/
def prefixInvariant (tbl : List IdentityRow) : Prop :=
  ∀ r ∈ tbl, ∀ s ∈ tbl, r.leaf_index < s.leaf_index → rank s.status ≤ rank r.status

instance (tbl : List IdentityRow) : Decidable (prefixInvariant tbl) :=
  inferInstanceAs (Decidable (∀ r ∈ tbl, ∀ s ∈ tbl,
    r.leaf_index < s.leaf_index → rank s.status ≤ rank r.status))

/-! ## Intake ledger: `unprocessed_identities` -/

/-- A row of `unprocessed_identities`
`(commitment PK, status, created_at, processed_at NULL, error_message NULL)`,
matching `database::types::UnprocessedCommitment`. -/
structure UnprocessedRow where
  commitment : Nat
  status : Status
  created_at : Nat
  processed_at : Option Nat
  error_message : Option String
deriving DecidableEq, Repr

/-- The constant `MAX_UNPROCESSED_FETCH_COUNT`, the hard LIMIT bound. -/
def MAX_UNPROCESSED_FETCH_COUNT : Nat := 10000

/-- The WHERE clause of `get_unprocessed_commitments`. -/
def matchesStatus (status : Status) (r : UnprocessedRow) : Bool :=
  r.status == status

/-- Relational semantics of `get_unprocessed_commitments`:
`SELECT * FROM unprocessed_identities WHERE status = $1 LIMIT $2` with
`$2 = MAX_UNPROCESSED_FETCH_COUNT` and no ORDER BY. A LIMIT query without
ORDER BY may return any `min(count, limit)` of the matching rows, in any
order, so a result is valid exactly when it is a sub-permutation of the
matching rows of that length. -/
def validUnprocessedResult (tbl : List UnprocessedRow) (status : Status)
    (res : List UnprocessedRow) : Prop :=
  res.Subperm (tbl.filter (matchesStatus status)) ∧
  res.length = min (tbl.filter (matchesStatus status)).length MAX_UNPROCESSED_FETCH_COUNT

/-- A list is in insertion order when `created_at` is monotone along it;
this is the ordering the spec promises for `list_by_status`. -/
def orderedByCreation (res : List UnprocessedRow) : Prop :=
  res.Chain' (fun a b => a.created_at ≤ b.created_at)

instance (res : List UnprocessedRow) : Decidable (orderedByCreation res) :=
  inferInstanceAs (Decidable (res.Chain'
    (fun (a b : UnprocessedRow) => a.created_at ≤ b.created_at)))

/-- Embedding of `get_unprocessed_commit_status`:
`SELECT status, error_message FROM unprocessed_identities WHERE commitment = $1`
(fetch_optional; commitment is the PK), with
`error_message.unwrap_or_default()` turning a NULL message into `""`. -/
def get_unprocessed_commit_status (tbl : List UnprocessedRow) (commitment : Nat) :
    Option (Status × String) :=
  (tbl.find? (fun r => r.commitment == commitment)).map
    (fun r => (r.status, r.error_message.getD ""))

/-! ## Batch capacity registry: `provers` -/

/-- A row of `provers (batch_size PK, url, timeout_s)`, matching
`prover::ProverConfiguration`. -/
structure ProverConfiguration where
  batch_size : Nat
  url : String
  timeout_s : Nat
deriving DecidableEq, Repr

/-- Embedding of `insert_prover_configuration`: INSERT with
`ON CONFLICT (batch_size) DO UPDATE SET (url, timeout_s) = ($2, $3)` —
replace-by-key on `batch_size`. -/
def insert_prover_configuration (tbl : List ProverConfiguration)
    (batch_size : Nat) (url : String) (timeout_seconds : Nat) : List ProverConfiguration :=
  if tbl.any (fun p => p.batch_size == batch_size) then
    tbl.map (fun p =>
      if p.batch_size == batch_size then
        { batch_size := batch_size, url := url, timeout_s := timeout_seconds }
      else p)
  else
    tbl ++ [{ batch_size := batch_size, url := url, timeout_s := timeout_seconds }]

/-- Embedding of `insert_provers`: early-return `Ok` on empty input; otherwise a single
plain `INSERT INTO provers (batch_size, url, timeout_s) VALUES ...` built by
QueryBuilder, with no ON CONFLICT clause — any value hitting the
`batch_size` primary key (already stored, or repeated within the batch)
makes the whole statement fail with a unique-violation `sqlx::Error`,
surfaced as `Error::InternalError`. The `HashSet` argument is modelled as
the list of its iteration order. -/
def insert_provers (tbl : List ProverConfiguration) (provers : List ProverConfiguration) :
    Except DbError (List ProverConfiguration) :=
  if provers.isEmpty then Except.ok tbl
  else if provers.any (fun p =>
          tbl.any (fun q => q.batch_size == p.batch_size) ||
          (provers.filter (fun q => q.batch_size == p.batch_size)).length != 1) then
    Except.error DbError.InternalError
  else Except.ok (tbl ++ provers)

/-! ## Concrete demonstration data -/

/-- Three pending identities at leaf indices 0..2 with roots 100..102. -/
def demoIdentities : List IdentityRow :=
  [{ leaf_index := 0, commitment := 10, root := 100, status := Status.Pending,
     pending_as_of := 0, mined_at := none },
   { leaf_index := 1, commitment := 11, root := 101, status := Status.Pending,
     pending_as_of := 0, mined_at := none },
   { leaf_index := 2, commitment := 12, root := 102, status := Status.Pending,
     pending_as_of := 0, mined_at := none }]

/-- State of `demoIdentities` after `mark_root_as_processed` at root 101 (time 5). -/
def demoProcessed : List IdentityRow :=
  [{ leaf_index := 0, commitment := 10, root := 100, status := Status.Processed,
     pending_as_of := 0, mined_at := some 5 },
   { leaf_index := 1, commitment := 11, root := 101, status := Status.Processed,
     pending_as_of := 0, mined_at := some 5 },
   { leaf_index := 2, commitment := 12, root := 102, status := Status.Pending,
     pending_as_of := 0, mined_at := none }]

/-- State of `demoIdentities` after `mark_root_as_mined` at root 101. -/
def demoMined01 : List IdentityRow :=
  [{ leaf_index := 0, commitment := 10, root := 100, status := Status.Mined,
     pending_as_of := 0, mined_at := none },
   { leaf_index := 1, commitment := 11, root := 101, status := Status.Mined,
     pending_as_of := 0, mined_at := none },
   { leaf_index := 2, commitment := 12, root := 102, status := Status.Pending,
     pending_as_of := 0, mined_at := none }]

/-- Three identities that have all reached Mined. -/
def demoAllMined : List IdentityRow :=
  [{ leaf_index := 0, commitment := 10, root := 100, status := Status.Mined,
     pending_as_of := 0, mined_at := none },
   { leaf_index := 1, commitment := 11, root := 101, status := Status.Mined,
     pending_as_of := 0, mined_at := none },
   { leaf_index := 2, commitment := 12, root := 102, status := Status.Mined,
     pending_as_of := 0, mined_at := none }]

/-- A short valid call sequence from the empty store. -/
def demoOps : List Op :=
  [Op.insert 0 0 10 100, Op.insert 1 1 11 101,
   Op.markProcessed 2 101, Op.markMined 100]

/-- Inserts at indices 0..2 followed by mining everything. -/
def demoMinedOps : List Op :=
  [Op.insert 0 0 10 100, Op.insert 0 1 11 101, Op.insert 0 2 12 102,
   Op.markMined 102]

/-- A one-row intake ledger with a NULL error message. -/
def demoUnprocessed : List UnprocessedRow :=
  [{ commitment := 7, status := Status.New, created_at := 0, processed_at := none,
     error_message := none }]

/-- A one-row provers table. -/
def demoProvers : List ProverConfiguration :=
  [{ batch_size := 1, url := "p", timeout_s := 5 }]

/-- An intake row created at time 1. -/
def demoIntakeEarly : UnprocessedRow :=
  { commitment := 1, status := Status.New, created_at := 1, processed_at := none,
    error_message := none }

/-- An intake row created at time 2. -/
def demoIntakeLate : UnprocessedRow :=
  { commitment := 2, status := Status.New, created_at := 2, processed_at := none,
    error_message := none }

/-! ## Helper lemmas -/

theorem get_leaf_index_by_root_eq_none_of (tbl : List IdentityRow) (root : Nat)
    (h : ∀ r ∈ tbl, r.root ≠ root) : get_leaf_index_by_root tbl root = none := by
  unfold get_leaf_index_by_root
  have hf : tbl.find? (fun r => r.root == root) = none := by
    rw [List.find?_eq_none]
    intro x hx
    simpa using h x hx
  rw [hf]
  rfl

theorem mark_root_as_processed_ok (tbl t2 : List IdentityRow) (now root : Nat)
    (h : mark_root_as_processed tbl now root = Except.ok t2) :
    ∃ target, get_leaf_index_by_root tbl root = some target ∧
      t2 = (tbl.map (processedUpdate target now)).map (pendingReset target) := by
  unfold mark_root_as_processed at h
  cases hg : get_leaf_index_by_root tbl root with
  | none => rw [hg] at h; exact absurd h (by simp)
  | some target =>
      rw [hg] at h
      simp only [Except.ok.injEq] at h
      exact ⟨target, rfl, h.symm⟩

theorem mark_root_as_mined_ok (tbl t2 : List IdentityRow) (root : Nat)
    (h : mark_root_as_mined tbl root = Except.ok t2) :
    ∃ target, get_leaf_index_by_root tbl root = some target ∧
      t2 = tbl.map (minedUpdate target) := by
  unfold mark_root_as_mined at h
  cases hg : get_leaf_index_by_root tbl root with
  | none => rw [hg] at h; exact absurd h (by simp)
  | some target =>
      rw [hg] at h
      simp only [Except.ok.injEq] at h
      exact ⟨target, rfl, h.symm⟩

theorem leaf_index_minedUpdate (target : Nat) (r : IdentityRow) :
    (minedUpdate target r).leaf_index = r.leaf_index := by
  unfold minedUpdate
  split <;> rfl

theorem leaf_index_processedReset (target now : Nat) (r : IdentityRow) :
    (pendingReset target (processedUpdate target now r)).leaf_index = r.leaf_index := by
  unfold pendingReset processedUpdate
  split <;> split <;> rfl

theorem rank_le_two (st : Status) : rank st ≤ 2 := by
  cases st <;> simp [rank]

theorem rank_minedUpdate (target : Nat) (r : IdentityRow) :
    rank (minedUpdate target r).status =
      if r.leaf_index ≤ target then 2 else rank r.status := by
  unfold minedUpdate
  by_cases h1 : r.leaf_index ≤ target
  · by_cases h2 : r.status = Status.Mined
    · simp [h1, h2, rank]
    · simp [h1, h2, rank]
  · simp [h1]

theorem rank_processedReset (target now : Nat) (r : IdentityRow) :
    rank (pendingReset target (processedUpdate target now r)).status =
      if r.leaf_index ≤ target then max (rank r.status) 1 else 0 := by
  unfold pendingReset processedUpdate
  by_cases h1 : r.leaf_index ≤ target
  · cases hst : r.status <;>
      simp [h1, hst, rank, Nat.not_lt.2 h1]
  · simp [h1, rank, Nat.lt_of_not_le h1]

theorem prefixInvariant_insert (tbl : List IdentityRow) (now i c root : Nat)
    (hfresh : ∀ r ∈ tbl, r.leaf_index < i) (hinv : prefixInvariant tbl) :
    prefixInvariant (insert_pending_identity tbl now i c root) := by
  unfold insert_pending_identity
  split
  · exact hinv
  · intro r hr s hs hlt
    rcases List.mem_append.1 hr with hr | hr
    · rcases List.mem_append.1 hs with hs | hs
      · exact hinv r hr s hs hlt
      · simp only [List.mem_singleton] at hs
        subst hs
        simp [rank]
    · simp only [List.mem_singleton] at hr
      subst hr
      rcases List.mem_append.1 hs with hs | hs
      · exact absurd hlt (by simpa using Nat.le_of_lt (hfresh s hs))
      · simp only [List.mem_singleton] at hs
        subst hs
        simp at hlt

theorem prefixInvariant_markMined (tbl t2 : List IdentityRow) (root : Nat)
    (hinv : prefixInvariant tbl) (h : mark_root_as_mined tbl root = Except.ok t2) :
    prefixInvariant t2 := by
  obtain ⟨target, hT, rfl⟩ := mark_root_as_mined_ok tbl t2 root h
  intro r hr s hs hlt
  rcases List.mem_map.1 hr with ⟨r0, hr0, rfl⟩
  rcases List.mem_map.1 hs with ⟨s0, hs0, rfl⟩
  rw [leaf_index_minedUpdate, leaf_index_minedUpdate] at hlt
  rw [rank_minedUpdate, rank_minedUpdate]
  by_cases hsle : s0.leaf_index ≤ target
  · have hrle : r0.leaf_index ≤ target := Nat.le_of_lt (Nat.lt_of_lt_of_le hlt hsle)
    simp [hsle, hrle]
  · by_cases hrle : r0.leaf_index ≤ target
    · simp [hsle, hrle, rank_le_two]
    · simp [hsle, hrle]
      exact hinv r0 hr0 s0 hs0 hlt

theorem prefixInvariant_markProcessed (tbl t2 : List IdentityRow) (now root : Nat)
    (hinv : prefixInvariant tbl) (h : mark_root_as_processed tbl now root = Except.ok t2) :
    prefixInvariant t2 := by
  obtain ⟨target, hT, rfl⟩ := mark_root_as_processed_ok tbl t2 now root h
  intro r hr s hs hlt
  rw [List.map_map] at hr hs
  rcases List.mem_map.1 hr with ⟨r0, hr0, rfl⟩
  rcases List.mem_map.1 hs with ⟨s0, hs0, rfl⟩
  simp only [Function.comp_apply] at hlt ⊢
  rw [leaf_index_processedReset, leaf_index_processedReset] at hlt
  rw [rank_processedReset, rank_processedReset]
  by_cases hsle : s0.leaf_index ≤ target
  · have hrle : r0.leaf_index ≤ target := Nat.le_of_lt (Nat.lt_of_lt_of_le hlt hsle)
    simp only [hsle, hrle, if_true]
    exact max_le_max (hinv r0 hr0 s0 hs0 hlt) (Nat.le_refl 1)
  · simp [hsle]

theorem prefixInvariant_applyOp (tbl : List IdentityRow) (op : Op)
    (hfresh : freshInsert tbl op = true) (hinv : prefixInvariant tbl) :
    prefixInvariant (applyOp tbl op) := by
  cases op with
  | insert now i c r =>
      unfold applyOp
      apply prefixInvariant_insert tbl now i c r _ hinv
      intro x hx
      have hx2 := List.all_eq_true.1 hfresh x hx
      simpa using hx2
  | markProcessed now r =>
      simp only [applyOp]
      cases hm : mark_root_as_processed tbl now r with
      | ok t => exact prefixInvariant_markProcessed tbl t now r hinv hm
      | error e => exact hinv
  | markMined r =>
      simp only [applyOp]
      cases hm : mark_root_as_mined tbl r with
      | ok t => exact prefixInvariant_markMined tbl t r hinv hm
      | error e => exact hinv

theorem prefixInvariant_runFrom (ops : List Op) :
    ∀ tbl, prefixInvariant tbl → validSeq tbl ops = true →
      prefixInvariant (runFrom tbl ops) := by
  induction ops with
  | nil =>
      intro tbl hinv _
      exact hinv
  | cons op rest ih =>
      intro tbl hinv h
      simp only [validSeq, Bool.and_eq_true] at h
      exact ih (applyOp tbl op) (prefixInvariant_applyOp tbl op h.1 hinv) h.2

theorem validSeq_take (ops : List Op) :
    ∀ tbl k, validSeq tbl ops = true → validSeq tbl (ops.take k) = true := by
  induction ops with
  | nil =>
      intro tbl k _
      simp [validSeq]
  | cons op rest ih =>
      intro tbl k h
      cases k with
      | zero => rfl
      | succ k =>
          simp only [List.take_succ_cons, validSeq, Bool.and_eq_true] at h ⊢
          exact ⟨h.1, ih (applyOp tbl op) k h.2⟩

theorem prefixInvariant_nil : prefixInvariant [] := by
  intro r hr
  simp at hr


/-! ## Claims -/

/-- C1 (counterexample): the claim that a Mined row is never changed by a later
`mark_root_as_processed` with any root fails: after mining all three demo
identities, `mark_root_as_processed` with root 100 (leaf index 0) resets the
Mined rows at leaf indices 1 and 2 back to Pending. -/
theorem c1_counterexample :
    (run demoMinedOps).map IdentityRow.status =
      [Status.Mined, Status.Mined, Status.Mined] ∧
    (mark_root_as_processed (run demoMinedOps) 5 100).map
        (fun t => t.map IdentityRow.status) =
      Except.ok [Status.Mined, Status.Pending, Status.Pending] := by
  exact ⟨rfl, rfl⟩

/-- C1 (amended): once a row is Mined, `mark_root_as_mined` never changes its
status (with any root), and `mark_root_as_processed` leaves it Mined provided
the named root resolves to a leaf index at least the row's; only a
`mark_root_as_processed` whose root resolves to a strictly smaller leaf index
can reset it. -/
theorem c1_amended_mined_stability (tbl : List IdentityRow) (now root : Nat)
    (i : Nat) (h1 : i < tbl.length) (hm : (tbl.get ⟨i, h1⟩).status = Status.Mined) :
    (∀ t3, mark_root_as_mined tbl root = Except.ok t3 →
      ∀ h3 : i < t3.length, (t3.get ⟨i, h3⟩).status = Status.Mined) ∧
    (∀ t2 target, get_leaf_index_by_root tbl root = some target →
      (tbl.get ⟨i, h1⟩).leaf_index ≤ target →
      mark_root_as_processed tbl now root = Except.ok t2 →
      ∀ h2 : i < t2.length, (t2.get ⟨i, h2⟩).status = Status.Mined) := by
  simp only [List.get_eq_getElem] at hm
  constructor
  · intro t3 h h3
    obtain ⟨target, hT, rfl⟩ := mark_root_as_mined_ok tbl t3 root h
    simp only [List.get_eq_getElem, List.getElem_map]
    unfold minedUpdate
    split
    case isTrue hc => exact absurd hm hc.2
    case isFalse => exact hm
  · intro t2 target hT hle h h2
    obtain ⟨target2, hT2, rfl⟩ := mark_root_as_processed_ok tbl t2 now root h
    rw [hT] at hT2
    injection hT2 with hT2
    subst hT2
    simp only [List.get_eq_getElem] at hle
    simp only [List.get_eq_getElem, List.getElem_map]
    unfold pendingReset processedUpdate
    simp [hm, Nat.not_lt.2 hle]

/-- C1 (witness for the amended theorem): in a fully mined table,
`mark_root_as_mined` at root 102 and `mark_root_as_processed` at root 102
both leave the row at leaf index 2 Mined. -/
theorem c1_amended_witness :
    (demoAllMined.get ⟨2, by decide⟩).status = Status.Mined ∧
    (demoAllMined.get ⟨2, by decide⟩).status = Status.Mined :=
  ⟨(c1_amended_mined_stability demoAllMined 5 102 2 (by decide) (by decide)).1
      demoAllMined rfl (by decide),
   (c1_amended_mined_stability demoAllMined 5 102 2 (by decide) (by decide)).2
      demoAllMined 2 rfl (by decide) rfl (by decide)⟩

/-- C2: for every sequence of `insert_pending_identity` (at strictly increasing
leaf indices), `mark_root_as_processed`, and `mark_root_as_mined` calls from
the empty store, after every prefix of the sequence the identities satisfy the
prefix invariant: no row has a strictly stronger status (Mined > Processed >
Pending) than a row with a smaller leaf index. -/
theorem c2_prefix_invariant_every_point (ops : List Op)
    (h : validSeq [] ops = true) :
    ∀ k, prefixInvariant (run (List.take k ops)) := by
  intro k
  exact prefixInvariant_runFrom (ops.take k) [] prefixInvariant_nil
    (validSeq_take ops [] k h)

/-- C2 (witness): the invariant holds after the full demo sequence. -/
theorem c2_witness : prefixInvariant (run (List.take 4 demoOps)) :=
  c2_prefix_invariant_every_point demoOps (by decide) 4

/-- C3: when root `root` is stored at leaf index `target`,
`mark_root_as_processed` sets status Processed on every row with
`leaf_index ≤ target` whose status is neither Processed nor Mined, and resets
every row with `leaf_index > target` to Pending with `mined_at = NULL`,
whatever its prior status. -/
theorem c3_mark_processed_effect (tbl t2 : List IdentityRow) (now root target : Nat)
    (hT : get_leaf_index_by_root tbl root = some target)
    (h : mark_root_as_processed tbl now root = Except.ok t2) :
    t2.length = tbl.length ∧
    ∀ i (h1 : i < tbl.length) (h2 : i < t2.length),
      ((tbl.get ⟨i, h1⟩).leaf_index ≤ target →
        (tbl.get ⟨i, h1⟩).status ≠ Status.Processed →
        (tbl.get ⟨i, h1⟩).status ≠ Status.Mined →
        (t2.get ⟨i, h2⟩).status = Status.Processed ∧
        (t2.get ⟨i, h2⟩).mined_at = some now) ∧
      (target < (tbl.get ⟨i, h1⟩).leaf_index →
        (t2.get ⟨i, h2⟩).status = Status.Pending ∧
        (t2.get ⟨i, h2⟩).mined_at = none) := by
  obtain ⟨target2, hT2, rfl⟩ := mark_root_as_processed_ok tbl t2 now root h
  rw [hT] at hT2
  injection hT2 with hT2
  subst hT2
  refine ⟨by simp, ?_⟩
  intro i h1 h2
  simp only [List.get_eq_getElem, List.getElem_map]
  constructor
  · intro hle hnp hnm
    unfold pendingReset processedUpdate
    simp [hle, hnp, hnm, Nat.not_lt.2 hle]
  · intro hgt
    unfold pendingReset processedUpdate
    simp [Nat.not_le.2 hgt, hgt]

/-- C3 (witness): processing root 101 in the three-row pending demo table
turns rows 0 and 1 Processed with `mined_at = 5` and resets row 2 to Pending
with no `mined_at`. -/
theorem c3_witness :
    ((demoProcessed.get ⟨0, by decide⟩).status = Status.Processed ∧
      (demoProcessed.get ⟨0, by decide⟩).mined_at = some 5) ∧
    ((demoProcessed.get ⟨2, by decide⟩).status = Status.Pending ∧
      (demoProcessed.get ⟨2, by decide⟩).mined_at = none) :=
  have h := c3_mark_processed_effect demoIdentities demoProcessed 5 101 1
    rfl rfl
  ⟨(h.2 0 (by decide) (by decide)).1 (by decide) (by decide) (by decide),
   (h.2 2 (by decide) (by decide)).2 (by decide)⟩

/-- C4 (counterexample): the claim that `mined_at` is assigned only on the
transition into Mined fails: `mark_root_as_processed` stamps
`mined_at = CURRENT_TIMESTAMP` on the row it moves into Processed. A single
pending row at root 100 processed at time 1 ends with status Processed and
`mined_at = some 1`. -/
theorem c4_counterexample :
    (insert_pending_identity [] 0 0 7 100).map
        (fun r => (r.status, r.mined_at)) = [(Status.Pending, none)] ∧
    (mark_root_as_processed (insert_pending_identity [] 0 0 7 100) 1 100).map
        (fun t => t.map (fun r => (r.status, r.mined_at))) =
      Except.ok [(Status.Processed, some 1)] := by
  exact ⟨rfl, rfl⟩

/-- C4 (amended): `mark_root_as_processed` assigns `mined_at = now` exactly on
a row's transition into Processed, clears `mined_at` on every row it returns
to Pending, and `mark_root_as_mined` never modifies `mined_at` (the transition
into Mined leaves it untouched). -/
theorem c4_amended_mined_at_discipline (tbl : List IdentityRow) (now root : Nat) :
    (∀ t2, mark_root_as_processed tbl now root = Except.ok t2 →
      ∀ i (h1 : i < tbl.length) (h2 : i < t2.length),
        ((t2.get ⟨i, h2⟩).status = Status.Processed →
          (tbl.get ⟨i, h1⟩).status ≠ Status.Processed →
          (t2.get ⟨i, h2⟩).mined_at = some now) ∧
        ((t2.get ⟨i, h2⟩).status = Status.Pending →
          (t2.get ⟨i, h2⟩).mined_at = none)) ∧
    (∀ t3, mark_root_as_mined tbl root = Except.ok t3 →
      ∀ i (h1 : i < tbl.length) (h3 : i < t3.length),
        (t3.get ⟨i, h3⟩).mined_at = (tbl.get ⟨i, h1⟩).mined_at) := by
  constructor
  · intro t2 h i h1 h2
    obtain ⟨target, hT, rfl⟩ := mark_root_as_processed_ok tbl t2 now root h
    simp only [List.get_eq_getElem, List.getElem_map]
    unfold pendingReset processedUpdate
    by_cases hle : tbl[i].leaf_index ≤ target
    · by_cases hp : tbl[i].status = Status.Processed
      · simp [hle, hp, Nat.not_lt.2 hle]
      · by_cases hmn : tbl[i].status = Status.Mined
        · simp [hle, hp, hmn, Nat.not_lt.2 hle]
        · simp [hle, hp, hmn, Nat.not_lt.2 hle]
    · simp [hle, Nat.lt_of_not_le hle]
  · intro t3 h i h1 h3
    obtain ⟨target, hT, rfl⟩ := mark_root_as_mined_ok tbl t3 root h
    simp only [List.get_eq_getElem, List.getElem_map]
    unfold minedUpdate
    split <;> rfl

/-- C4 (witness for the amended theorem): in the demo run, the row moved into
Processed at time 5 carries `mined_at = some 5`, the row reset to Pending has
`mined_at = none`, and mining leaves row 0's `mined_at` unchanged. -/
theorem c4_amended_witness :
    (demoProcessed.get ⟨0, by decide⟩).mined_at = some 5 ∧
    (demoProcessed.get ⟨2, by decide⟩).mined_at = none ∧
    (demoMined01.get ⟨0, by decide⟩).mined_at =
      (demoIdentities.get ⟨0, by decide⟩).mined_at :=
  have h := c4_amended_mined_at_discipline demoIdentities 5 101
  ⟨(h.1 demoProcessed rfl 0 (by decide) (by decide)).1 (by decide) (by decide),
   (h.1 demoProcessed rfl 2 (by decide) (by decide)).2 (by decide),
   h.2 demoMined01 rfl 0 (by decide) (by decide)⟩

/-- C5: from the empty store, inserting identities at leaf indices 0..4 with
distinct roots 100..104 and then calling mark-processed at root 102,
mark-mined at 101, mark-processed at 104 and mark-mined at 104 yields,
after each call, the four expected status vectors. -/
theorem c5_scenario_status_vectors :
    (run [Op.insert 0 0 10 100, Op.insert 0 1 11 101, Op.insert 0 2 12 102,
          Op.insert 0 3 13 103, Op.insert 0 4 14 104,
          Op.markProcessed 1 102]).map IdentityRow.status =
      [Status.Processed, Status.Processed, Status.Processed,
       Status.Pending, Status.Pending] ∧
    (run [Op.insert 0 0 10 100, Op.insert 0 1 11 101, Op.insert 0 2 12 102,
          Op.insert 0 3 13 103, Op.insert 0 4 14 104,
          Op.markProcessed 1 102, Op.markMined 101]).map IdentityRow.status =
      [Status.Mined, Status.Mined, Status.Processed,
       Status.Pending, Status.Pending] ∧
    (run [Op.insert 0 0 10 100, Op.insert 0 1 11 101, Op.insert 0 2 12 102,
          Op.insert 0 3 13 103, Op.insert 0 4 14 104,
          Op.markProcessed 1 102, Op.markMined 101,
          Op.markProcessed 2 104]).map IdentityRow.status =
      [Status.Mined, Status.Mined, Status.Processed,
       Status.Processed, Status.Processed] ∧
    (run [Op.insert 0 0 10 100, Op.insert 0 1 11 101, Op.insert 0 2 12 102,
          Op.insert 0 3 13 103, Op.insert 0 4 14 104,
          Op.markProcessed 1 102, Op.markMined 101,
          Op.markProcessed 2 104, Op.markMined 104]).map IdentityRow.status =
      [Status.Mined, Status.Mined, Status.Mined,
       Status.Mined, Status.Mined] := by
  decide

/-- C6: when root `root` is stored at leaf index `target`,
`mark_root_as_mined` leaves every row with `leaf_index > target` completely
unchanged, changes only the `status` field (to Mined) on rows with
`leaf_index ≤ target`, and is a no-op on any row already Mined. -/
theorem c6_mark_mined_frame (tbl t2 : List IdentityRow) (root target : Nat)
    (hT : get_leaf_index_by_root tbl root = some target)
    (h : mark_root_as_mined tbl root = Except.ok t2) :
    t2.length = tbl.length ∧
    ∀ i (h1 : i < tbl.length) (h2 : i < t2.length),
      (target < (tbl.get ⟨i, h1⟩).leaf_index → t2.get ⟨i, h2⟩ = tbl.get ⟨i, h1⟩) ∧
      ((tbl.get ⟨i, h1⟩).leaf_index ≤ target →
        (t2.get ⟨i, h2⟩).status = Status.Mined ∧
        (t2.get ⟨i, h2⟩).leaf_index = (tbl.get ⟨i, h1⟩).leaf_index ∧
        (t2.get ⟨i, h2⟩).commitment = (tbl.get ⟨i, h1⟩).commitment ∧
        (t2.get ⟨i, h2⟩).root = (tbl.get ⟨i, h1⟩).root ∧
        (t2.get ⟨i, h2⟩).pending_as_of = (tbl.get ⟨i, h1⟩).pending_as_of ∧
        (t2.get ⟨i, h2⟩).mined_at = (tbl.get ⟨i, h1⟩).mined_at) ∧
      ((tbl.get ⟨i, h1⟩).status = Status.Mined → t2.get ⟨i, h2⟩ = tbl.get ⟨i, h1⟩) := by
  obtain ⟨target2, hT2, rfl⟩ := mark_root_as_mined_ok tbl t2 root h
  rw [hT] at hT2
  injection hT2 with hT2
  subst hT2
  refine ⟨by simp, ?_⟩
  intro i h1 h2
  simp only [List.get_eq_getElem, List.getElem_map]
  refine ⟨?_, ?_, ?_⟩
  · intro hgt
    unfold minedUpdate
    simp [Nat.not_le.2 hgt]
  · intro hle
    unfold minedUpdate
    by_cases hmn : tbl[i].status = Status.Mined
    · simp [hle, hmn]
    · simp [hle, hmn]
  · intro hmn
    unfold minedUpdate
    simp [hmn]

/-- C6 (witness): mining root 101 in the pending demo table leaves row 2
untouched and turns row 0 Mined while preserving its other fields. -/
theorem c6_witness :
    demoMined01.get ⟨2, by decide⟩ = demoIdentities.get ⟨2, by decide⟩ ∧
    (demoMined01.get ⟨0, by decide⟩).status = Status.Mined ∧
    (demoMined01.get ⟨0, by decide⟩).mined_at =
      (demoIdentities.get ⟨0, by decide⟩).mined_at :=
  have h := c6_mark_mined_frame demoIdentities demoMined01 101 1 rfl rfl
  ⟨(h.2 2 (by decide) (by decide)).1 (by decide),
   ((h.2 0 (by decide) (by decide)).2.1 (by decide)).1,
   ((h.2 0 (by decide) (by decide)).2.1 (by decide)).2.2.2.2.2⟩

/-- C7: for a root stored in no identity row, both `mark_root_as_processed`
and `mark_root_as_mined` fail with `MissingRoot` for that root; the
transaction commits nothing, so the store is unchanged. -/
theorem c7_missing_root_rejected (tbl : List IdentityRow) (now root : Nat)
    (h : ∀ r ∈ tbl, r.root ≠ root) :
    mark_root_as_processed tbl now root = Except.error (DbError.MissingRoot root) ∧
    mark_root_as_mined tbl root = Except.error (DbError.MissingRoot root) := by
  have hn := get_leaf_index_by_root_eq_none_of tbl root h
  unfold mark_root_as_processed mark_root_as_mined
  rw [hn]
  exact ⟨rfl, rfl⟩

/-- C7 (witness): root 999 is absent from the demo table and both calls
report `MissingRoot 999`. -/
theorem c7_witness :
    mark_root_as_processed demoIdentities 0 999 =
      Except.error (DbError.MissingRoot 999) ∧
    mark_root_as_mined demoIdentities 999 =
      Except.error (DbError.MissingRoot 999) :=
  c7_missing_root_rejected demoIdentities 0 999 (by decide)

/-- C8 (counterexample): the claim that `get_unprocessed_commitments` returns
rows ordered by insertion (creation time) fails: the SELECT has no ORDER BY,
so the reversed two-row result is an admissible answer of the query yet is
not in creation order. -/
theorem c8_counterexample :
    validUnprocessedResult [demoIntakeEarly, demoIntakeLate] Status.New
      [demoIntakeLate, demoIntakeEarly] ∧
    ¬ orderedByCreation [demoIntakeLate, demoIntakeEarly] := by
  refine ⟨⟨?_, by decide⟩, ?_⟩
  · have hf : List.filter (matchesStatus Status.New) [demoIntakeEarly, demoIntakeLate] =
        [demoIntakeEarly, demoIntakeLate] := rfl
    rw [hf]
    exact (List.Perm.swap demoIntakeEarly demoIntakeLate []).subperm
  · intro hord
    have h12 := (List.chain'_cons.mp hord).1
    simp [demoIntakeLate, demoIntakeEarly] at h12

/-- C8 (amended): every admissible result of `get_unprocessed_commitments`
has at most `MAX_UNPROCESSED_FETCH_COUNT = 10000` rows, contains only rows
of the requested status drawn from the table, and has exactly
`min(match-count, 10000)` rows — but in no guaranteed order. -/
theorem c8_amended_bounded_fetch (tbl : List UnprocessedRow) (status : Status)
    (res : List UnprocessedRow) (h : validUnprocessedResult tbl status res) :
    res.length ≤ MAX_UNPROCESSED_FETCH_COUNT ∧
    (∀ r ∈ res, r ∈ tbl ∧ r.status = status) ∧
    res.length = min (tbl.filter (matchesStatus status)).length
      MAX_UNPROCESSED_FETCH_COUNT := by
  obtain ⟨hsub, hlen⟩ := h
  refine ⟨?_, ?_, hlen⟩
  · rw [hlen]
    exact Nat.min_le_right _ _
  · intro r hr
    have hmem := hsub.subset hr
    rw [List.mem_filter] at hmem
    exact ⟨hmem.1, by simpa [matchesStatus] using hmem.2⟩

/-- C8 (witness for the amended theorem): the one-row demo intake table
returned in full satisfies the bound. -/
theorem c8_amended_witness :
    List.length demoUnprocessed ≤ MAX_UNPROCESSED_FETCH_COUNT := by
  refine (c8_amended_bounded_fetch demoUnprocessed Status.New demoUnprocessed
    ⟨?_, by decide⟩).1
  have hf : List.filter (matchesStatus Status.New) demoUnprocessed =
      demoUnprocessed := rfl
  rw [hf]

/-- C9 (counterexample): the claim that `insert_provers` applies the same
replace-by-key semantics as `insert_prover_configuration` fails: the bulk
INSERT has no ON CONFLICT clause, so inserting batch_size 1 into a table
already holding batch_size 1 errors, while the single-row upsert replaces
the stored url and timeout. -/
theorem c9_counterexample :
    insert_provers demoProvers [{ batch_size := 1, url := "q", timeout_s := 9 }] =
      Except.error DbError.InternalError ∧
    insert_prover_configuration demoProvers 1 "q" 9 =
      [{ batch_size := 1, url := "q", timeout_s := 9 }] := by
  exact ⟨rfl, rfl⟩

/-- C9 (amended): `insert_provers` is a no-op on empty input; on non-empty
input it appends all rows when no batch_size collides with the stored table
(or within the batch), and fails with the internal unique-violation error
when some incoming batch_size already exists in the table. -/
theorem c9_amended_bulk_insert (tbl provers : List ProverConfiguration) :
    (provers = [] → insert_provers tbl provers = Except.ok tbl) ∧
    (provers ≠ [] →
      (∀ p ∈ provers,
        (∀ q ∈ tbl, q.batch_size ≠ p.batch_size) ∧
        (provers.filter (fun q => q.batch_size == p.batch_size)).length = 1) →
      insert_provers tbl provers = Except.ok (tbl ++ provers)) ∧
    ((∃ p ∈ provers, ∃ q ∈ tbl, q.batch_size = p.batch_size) →
      insert_provers tbl provers = Except.error DbError.InternalError) := by
  refine ⟨?_, ?_, ?_⟩
  · intro h
    subst h
    rfl
  · intro hne hall
    have hE : provers.isEmpty = false := by
      cases provers with
      | nil => exact absurd rfl hne
      | cons a l => rfl
    have hany : (provers.any (fun p =>
        tbl.any (fun q => q.batch_size == p.batch_size) ||
        (provers.filter (fun q => q.batch_size == p.batch_size)).length != 1)) =
        false := by
      rw [List.any_eq_false]
      intro p hp
      obtain ⟨h1, h2⟩ := hall p hp
      have hA : tbl.any (fun q => q.batch_size == p.batch_size) = false := by
        rw [List.any_eq_false]
        intro q hq
        simp only [beq_iff_eq]
        exact h1 q hq
      have hB : ((provers.filter (fun q => q.batch_size == p.batch_size)).length
          != 1) = false := by
        rw [h2]
        rfl
      rw [hA, hB]
      simp
    unfold insert_provers
    rw [hE, hany]
    rfl
  · intro hcoll
    obtain ⟨p, hp, q, hq, heq⟩ := hcoll
    have hE : provers.isEmpty = false := by
      cases provers with
      | nil => simp at hp
      | cons a l => rfl
    have hany : (provers.any (fun p =>
        tbl.any (fun s => s.batch_size == p.batch_size) ||
        (provers.filter (fun s => s.batch_size == p.batch_size)).length != 1)) =
        true := by
      rw [List.any_eq_true]
      refine ⟨p, hp, ?_⟩
      have hA : tbl.any (fun s => s.batch_size == p.batch_size) = true := by
        rw [List.any_eq_true]
        exact ⟨q, hq, by simp [heq]⟩
      rw [hA]
      rfl
    unfold insert_provers
    rw [hE, hany]
    rfl

/-- C9 (witness for the amended theorem): empty input is a no-op, a fresh
batch_size 2 is appended, and a colliding batch_size 1 errors. -/
theorem c9_amended_witness :
    insert_provers demoProvers [] = Except.ok demoProvers ∧
    insert_provers demoProvers [{ batch_size := 2, url := "q", timeout_s := 9 }] =
      Except.ok (demoProvers ++ [{ batch_size := 2, url := "q", timeout_s := 9 }]) ∧
    insert_provers demoProvers [{ batch_size := 1, url := "q", timeout_s := 9 }] =
      Except.error DbError.InternalError :=
  ⟨(c9_amended_bulk_insert demoProvers []).1 rfl,
   (c9_amended_bulk_insert demoProvers
      [{ batch_size := 2, url := "q", timeout_s := 9 }]).2.1
      (by simp) (by decide),
   (c9_amended_bulk_insert demoProvers
      [{ batch_size := 1, url := "q", timeout_s := 9 }]).2.2
      ⟨{ batch_size := 1, url := "q", timeout_s := 9 }, by simp,
        { batch_size := 1, url := "p", timeout_s := 5 }, by simp [demoProvers], rfl⟩⟩

/-- C10: `get_unprocessed_commit_status` maps a stored commitment whose
`error_message` is NULL to `some (status, "")` (empty string substituted for
the missing message) and an absent commitment to `none`. -/
theorem c10_unprocessed_commit_status (tbl : List UnprocessedRow) (c : Nat) :
    (∀ r, tbl.find? (fun row => row.commitment == c) = some r →
      r.error_message = none →
      get_unprocessed_commit_status tbl c = some (r.status, "")) ∧
    ((∀ r ∈ tbl, r.commitment ≠ c) → get_unprocessed_commit_status tbl c = none) := by
  constructor
  · intro r hfind hmsg
    unfold get_unprocessed_commit_status
    rw [hfind]
    simp [hmsg]
  · intro h
    unfold get_unprocessed_commit_status
    have hf : tbl.find? (fun row => row.commitment == c) = none := by
      rw [List.find?_eq_none]
      intro x hx
      simpa using h x hx
    rw [hf]
    rfl

/-- C10 (witness): commitment 7 with a NULL message reports
`(New, "")`; absent commitment 8 reports nothing. -/
theorem c10_witness :
    get_unprocessed_commit_status demoUnprocessed 7 = some (Status.New, "") ∧
    get_unprocessed_commit_status demoUnprocessed 8 = none :=
  ⟨(c10_unprocessed_commit_status demoUnprocessed 7).1
      { commitment := 7, status := Status.New, created_at := 0, processed_at := none,
        error_message := none } rfl rfl,
   (c10_unprocessed_commit_status demoUnprocessed 8).2 (by decide)⟩

end SignupSequencer
